import Mathlib

/-!
Verification of the BioOpti kinetics core: a shallow embedding of
`src/bioopti/reaction_simulator.py` and `src/bioopti/simulation.py`
(the Michaelis-Menten rate evaluator with Gaussian environmental
penalties, the key-normalization helper, and the optimization wrapper),
together with theorems settling the specified properties.

Python floats are modelled by real numbers; Python's float division,
which raises `ZeroDivisionError` on a zero denominator, is modelled by
`pydiv` returning `Except`.  `math.exp` is modelled by `Real.exp`.
-/

namespace BioOpti

/-- Exceptions that a call into the kinetics core can surface.
`zeroDivisionError` is Python's built-in `ZeroDivisionError`;
`invalidInputError` is the `InvalidInputError` named by the spec's
error taxonomy (no code in the repository ever raises it). -/
inductive PyError where
  | zeroDivisionError
  | invalidInputError
  deriving DecidableEq, Repr

/-- Python float division: `a / b`, raising `ZeroDivisionError` when `b == 0`. -/
noncomputable def pydiv (a b : ℝ) : Except PyError ℝ :=
  if b = 0 then .error .zeroDivisionError else .ok (a / b)

/-- The argument list of `simulate_reaction_rate` in
`reaction_simulator.py` (and, up to spelling of the pH-related names,
of the copy in `simulation.py`), default values included. -/
structure RateArgs where
  substrate_conc : ℝ
  vmax : ℝ
  km : ℝ
  pH : ℝ
  temp : ℝ
  optimal_pH : ℝ := 7.0
  optimal_temp : ℝ := 37.0
  pH_sigma : ℝ := 1.0
  temp_sigma : ℝ := 5.0
  inhibitor_conc : Option ℝ := none
  ki : Option ℝ := none

/-- The effective Michaelis constant:
`km_effective = km * (1 + inhibitor_conc / ki)` when both
`inhibitor_conc` and `ki` are provided (`is not None`), else `km`.
This is the `if inhibitor_conc is not None and ki is not None` block
shared verbatim by both Python copies of the evaluator. -/
noncomputable def km_effective (a : RateArgs) : Except PyError ℝ :=
  match a.inhibitor_conc, a.ki with
  | some i, some k => do
      let r ← pydiv i k
      pure (a.km * (1 + r))
  | _, _ => pure a.km

/-- `simulate_reaction_rate` from `reaction_simulator.py`:
Michaelis-Menten base rate with the effective Michaelis constant,
multiplied by Gaussian temperature and pH penalties. -/
noncomputable def simulate_reaction_rate (a : RateArgs) : Except PyError ℝ := do
  let keff ← km_effective a
  let v ← pydiv (a.vmax * a.substrate_conc) (keff + a.substrate_conc)
  let te ← pydiv (-((a.temp - a.optimal_temp) ^ 2)) (2 * a.temp_sigma ^ 2)
  let temp_penalty := Real.exp te
  let pe ← pydiv (-((a.pH - a.optimal_pH) ^ 2)) (2 * a.pH_sigma ^ 2)
  let pH_penalty := Real.exp pe
  pure (v * (temp_penalty * pH_penalty))

/-- `simulate_reaction_rate` from `simulation.py`: same arguments, but
the body first computes `base_rate` (immediately discarded), then the
two penalties, then recomputes the effective Michaelis constant and the
Michaelis-Menten quotient `v`, and returns `v` times the penalties. -/
noncomputable def simulation_simulate_reaction_rate (a : RateArgs) :
    Except PyError ℝ := do
  let effective_km ← km_effective a
  let _base_rate ← pydiv (a.vmax * a.substrate_conc)
    (effective_km + a.substrate_conc)
  let te ← pydiv (-((a.temp - a.optimal_temp) ^ 2)) (2 * a.temp_sigma ^ 2)
  let temp_penalty := Real.exp te
  let pe ← pydiv (-((a.pH - a.optimal_pH) ^ 2)) (2 * a.pH_sigma ^ 2)
  let ph_penalty := Real.exp pe
  let km_eff ← km_effective a
  let v ← pydiv (a.vmax * a.substrate_conc) (km_eff + a.substrate_conc)
  pure (v * (temp_penalty * ph_penalty))

/-- The `key_mapping` dictionary inside `normalize_keys` in
`reaction_simulator.py`, mapping unit-tagged JSON keys to generic ones. -/
def key_mapping : List (String × String) :=
  [("km_mM", "km"),
   ("vmax_umol_per_min", "vmax"),
   ("optimal_pH", "optimal_pH"),
   ("optimal_temp_C", "optimal_temp"),
   ("pH_sigma", "pH_sigma"),
   ("temp_sigma_C", "temp_sigma"),
   ("ki_mM", "ki")]

/-- A Python dict write `d[k] = v`: overwrite in place when the key is
present (dicts keep the original insertion position), else append. -/
def dictInsert {V : Type} (d : List (String × V)) (k : String) (v : V) :
    List (String × V) :=
  if d.any (fun p => p.1 == k) then
    d.map (fun p => if p.1 == k then (k, v) else p)
  else d ++ [(k, v)]

/-- The loop body of `normalize_keys`: write the value under the
mapped key when `k in key_mapping`, else under the key as it is. -/
def normalizeStep {V : Type} (normalized : List (String × V))
    (p : String × V) : List (String × V) :=
  match key_mapping.lookup p.1 with
  | some k2 => dictInsert normalized k2 p.2
  | none => dictInsert normalized p.1 p.2

/-- `normalize_keys` from `reaction_simulator.py`: rebuild the dict,
replacing each key found in `key_mapping` by its generic counterpart and
keeping every other key as it is.  A Python dict is modelled as an
insertion-ordered association list. -/
def normalize_keys {V : Type} (d : List (String × V)) : List (String × V) :=
  d.foldl normalizeStep []

/-- The key list of a modelled Python dict. -/
def dictKeys {V : Type} (d : List (String × V)) : List String :=
  d.map Prod.fst

/-- A key is stable under normalization: either `key_mapping` does not
mention it, or it maps to itself. -/
def stableKey (k : String) : Prop :=
  key_mapping.lookup k = none ∨ key_mapping.lookup k = some k

instance (k : String) : Decidable (stableKey k) := by
  unfold stableKey
  infer_instance

/-- The `enzyme_params` dictionary taken by `optimize_reaction`:
`vmax`, `km`, `optimal_pH` and `optimal_temp` are read with mandatory
dict indexing, the rest with `.get` and may be absent. -/
structure EnzymeParams where
  vmax : ℝ
  km : ℝ
  optimal_pH : ℝ
  optimal_temp : ℝ
  pH_sigma : Option ℝ := none
  temp_sigma : Option ℝ := none
  inhibitor_conc : Option ℝ := none
  ki : Option ℝ := none

/-- The `bounds` list defined at the top of `optimize_reaction`:
substrate concentration, pH, temperature. -/
def de_bounds : List (ℝ × ℝ) :=
  [(0.01, 10.0), (4.0, 9.0), (20.0, 60.0)]

/-- The argument record that the `objective` closure of
`optimize_reaction` passes to `simulate_reaction_rate` for a candidate
point `x = (substrate_conc, pH, temp)`. -/
def rate_args_at (p : EnzymeParams) (x : ℝ × ℝ × ℝ) : RateArgs :=
  { substrate_conc := x.1
    vmax := p.vmax
    km := p.km
    pH := x.2.1
    temp := x.2.2
    optimal_pH := p.optimal_pH
    optimal_temp := p.optimal_temp
    pH_sigma := p.pH_sigma.getD 1.0
    temp_sigma := p.temp_sigma.getD 5.0
    inhibitor_conc := p.inhibitor_conc
    ki := p.ki }

/-- The `objective` closure of `optimize_reaction`: the negated
simulated rate at a candidate point. -/
noncomputable def objective (p : EnzymeParams) (x : ℝ × ℝ × ℝ) :
    Except PyError ℝ :=
  (simulate_reaction_rate (rate_args_at p x)).map (fun v => -v)

/-- The fields of the `scipy.optimize` result object that
`optimize_reaction` reads: the argmin `x` and the minimum value `fun`. -/
structure DEResult where
  x : ℝ × ℝ × ℝ
  fval : ℝ

/-- The dictionary returned by `optimize_reaction`. -/
structure OptResult where
  best_conditions : ℝ × ℝ × ℝ
  max_rate : ℝ

/-- `optimize_reaction`, parameterized by the external minimizer
(`scipy.optimize.differential_evolution`, an external collaborator per
the spec), which receives the objective and returns its result object.
The wrapper returns the argmin and the negated minimum. -/
noncomputable def optimize_reaction
    (differential_evolution :
      ((ℝ × ℝ × ℝ) → Except PyError ℝ) → DEResult)
    (enzyme_params : EnzymeParams) : OptResult :=
  let result := differential_evolution (objective enzyme_params)
  { best_conditions := result.x, max_rate := -result.fval }

/-- Membership of a candidate point in the box described by
`de_bounds`, component by component. -/
def in_de_bounds (x : ℝ × ℝ × ℝ) : Prop :=
  List.Forall₂ (fun v lu => lu.1 ≤ v ∧ v ≤ lu.2)
    [x.1, x.2.1, x.2.2] de_bounds

/-! ### Basic lemmas about the `Except` monad and `pydiv` -/

@[simp] theorem ok_bind {ε α β : Type} (a : α) (f : α → Except ε β) :
    (Except.ok a >>= f) = f a := rfl

@[simp] theorem error_bind {ε α β : Type} (e : ε) (f : α → Except ε β) :
    ((Except.error e : Except ε α) >>= f) = .error e := rfl

@[simp] theorem pure_eq_ok {ε α : Type} (a : α) :
    (pure a : Except ε α) = .ok a := rfl

theorem pydiv_ok {b : ℝ} (a : ℝ) (hb : b ≠ 0) : pydiv a b = .ok (a / b) := by
  simp [pydiv, hb]

theorem pydiv_error {a b : ℝ} {e : PyError} (h : pydiv a b = .error e) :
    e = .zeroDivisionError := by
  unfold pydiv at h
  split at h <;> simp_all

theorem km_effective_some {a : RateArgs} {i k : ℝ}
    (hi : a.inhibitor_conc = some i) (hk : a.ki = some k) (hk0 : k ≠ 0) :
    km_effective a = .ok (a.km * (1 + i / k)) := by
  simp [km_effective, hi, hk, pydiv_ok _ hk0]

theorem km_effective_none {a : RateArgs}
    (h : a.inhibitor_conc = none ∨ a.ki = none) :
    km_effective a = .ok a.km := by
  rcases h with h | h <;>
    · unfold km_effective
      rw [h]
      cases ha : a.inhibitor_conc <;> cases hb : a.ki <;> simp_all

theorem km_effective_error {a : RateArgs} {e : PyError}
    (h : km_effective a = .error e) : e = .zeroDivisionError := by
  unfold km_effective at h
  cases ha : a.inhibitor_conc with
  | none => rw [ha] at h; simp at h
  | some i =>
      cases hb : a.ki with
      | none => rw [ha, hb] at h; simp at h
      | some k =>
          rw [ha, hb] at h
          have hred : (match (some i : Option ℝ), (some k : Option ℝ) with
              | some i, some k => do
                  let r ← pydiv i k
                  pure (a.km * (1 + r))
              | _, _ => pure a.km) =
              (pydiv i k >>= fun r => pure (a.km * (1 + r)) :
                Except PyError ℝ) := rfl
          rw [hred] at h
          cases hd : pydiv i k with
          | error e2 =>
              rw [hd] at h
              simp at h
              rw [h] at hd
              exact pydiv_error hd
          | ok r => rw [hd] at h; simp at h

/-- Evaluation of `simulate_reaction_rate` when every denominator is
nonzero: the result is the base rate times the two Gaussian penalties. -/
theorem simulate_eval {a : RateArgs} {e : ℝ}
    (he : km_effective a = .ok e)
    (hden : e + a.substrate_conc ≠ 0)
    (hts : a.temp_sigma ≠ 0) (hps : a.pH_sigma ≠ 0) :
    simulate_reaction_rate a = .ok
      ((a.vmax * a.substrate_conc) / (e + a.substrate_conc) *
       (Real.exp (-((a.temp - a.optimal_temp) ^ 2) / (2 * a.temp_sigma ^ 2)) *
        Real.exp (-((a.pH - a.optimal_pH) ^ 2) / (2 * a.pH_sigma ^ 2)))) := by
  have h2 : (2 : ℝ) * a.temp_sigma ^ 2 ≠ 0 := by positivity
  have h3 : (2 : ℝ) * a.pH_sigma ^ 2 ≠ 0 := by positivity
  unfold simulate_reaction_rate
  rw [he, ok_bind, pydiv_ok _ hden, ok_bind, pydiv_ok _ h2, ok_bind,
    pydiv_ok _ h3, ok_bind]
  rfl

/-- Under the spec's validity assumptions the effective Michaelis
constant evaluates successfully and is positive. -/
theorem km_effective_pos {a : RateArgs} (hk : 0 < a.km)
    (hi : ∀ i, a.inhibitor_conc = some i → 0 ≤ i)
    (hki : ∀ k, a.ki = some k → 0 < k) :
    ∃ e, km_effective a = .ok e ∧ 0 < e := by
  cases ha : a.inhibitor_conc with
  | none => exact ⟨a.km, km_effective_none (Or.inl ha), hk⟩
  | some i =>
      cases hb : a.ki with
      | none => exact ⟨a.km, km_effective_none (Or.inr hb), hk⟩
      | some k =>
          have hkpos := hki k hb
          have hipos := hi i ha
          refine ⟨a.km * (1 + i / k), km_effective_some ha hb (ne_of_gt hkpos), ?_⟩
          have hq : 0 ≤ i / k := div_nonneg hipos hkpos.le
          nlinarith

/-- Under the spec's validity assumptions the evaluator succeeds and
its result is non-negative. -/
theorem simulate_ok_nonneg {a : RateArgs} (hv : 0 < a.vmax) (hk : 0 < a.km)
    (hps : 0 < a.pH_sigma) (hts : 0 < a.temp_sigma)
    (hs : 0 ≤ a.substrate_conc)
    (hi : ∀ i, a.inhibitor_conc = some i → 0 ≤ i)
    (hki : ∀ k, a.ki = some k → 0 < k) :
    ∃ r, simulate_reaction_rate a = .ok r ∧ 0 ≤ r := by
  obtain ⟨e, he, hepos⟩ := km_effective_pos hk hi hki
  have hden : 0 < e + a.substrate_conc := by linarith
  refine ⟨_, simulate_eval he (ne_of_gt hden) (ne_of_gt hts) (ne_of_gt hps), ?_⟩
  have h1 : 0 ≤ a.vmax * a.substrate_conc / (e + a.substrate_conc) :=
    div_nonneg (mul_nonneg hv.le hs) hden.le
  have h2 : 0 ≤ Real.exp (-((a.temp - a.optimal_temp) ^ 2) / (2 * a.temp_sigma ^ 2)) *
      Real.exp (-((a.pH - a.optimal_pH) ^ 2) / (2 * a.pH_sigma ^ 2)) := by
    positivity
  exact mul_nonneg h1 h2

/-- Claim C1: with `inhibitor_conc` and `ki` both present and `ki ≠ 0`
(and every denominator nonzero so that the call is defined), the result
is `(vmax * substrate_conc) / (km * (1 + inhibitor_conc / ki) +
substrate_conc)` times the Gaussian temperature and pH penalties; when
`inhibitor_conc` or `ki` is absent, the effective Michaelis constant is
`km` unchanged. -/
theorem simulate_rate_formula (a : RateArgs) :
    (∀ i k, a.inhibitor_conc = some i → a.ki = some k → k ≠ 0 →
      a.km * (1 + i / k) + a.substrate_conc ≠ 0 →
      a.temp_sigma ≠ 0 → a.pH_sigma ≠ 0 →
      simulate_reaction_rate a = .ok
        ((a.vmax * a.substrate_conc) /
            (a.km * (1 + i / k) + a.substrate_conc) *
          Real.exp (-((a.temp - a.optimal_temp) ^ 2) /
            (2 * a.temp_sigma ^ 2)) *
          Real.exp (-((a.pH - a.optimal_pH) ^ 2) /
            (2 * a.pH_sigma ^ 2)))) ∧
    ((a.inhibitor_conc = none ∨ a.ki = none) →
      km_effective a = .ok a.km) := by
  constructor
  · intro i k hi hk hk0 hden hts hps
    have h := simulate_eval (km_effective_some hi hk hk0) hden hts hps
    rw [h]
    congr 1
    ring
  · exact km_effective_none

/-- Witness for C1: the spec's inhibition example, with both penalties
equal to 1 at the optima; the rate evaluates to 100/4 = 25. -/
theorem simulate_rate_formula_witness :
    simulate_reaction_rate { substrate_conc := 1, vmax := 100, km := 0.5,
                             pH := 7.0, temp := 37.0,
                             inhibitor_conc := some 0.5,
                             ki := some 0.1 } = .ok 25 := by
  have h := (simulate_rate_formula
    { substrate_conc := 1, vmax := 100, km := 0.5, pH := 7.0,
      temp := 37.0, inhibitor_conc := some 0.5, ki := some 0.1 }).1
    0.5 0.1 rfl rfl (by norm_num) (by norm_num) (by norm_num) (by norm_num)
  rw [h]
  norm_num [Real.exp_zero]

/-- Claim C2: for every valid input (`vmax > 0`, `km > 0`,
`pH_sigma > 0`, `temp_sigma > 0`, `substrate_conc ≥ 0`,
`inhibitor_conc ≥ 0` and `ki > 0` when present), the evaluator returns
a value ≥ 0. -/
theorem simulate_nonneg (a : RateArgs) (hv : 0 < a.vmax) (hk : 0 < a.km)
    (hps : 0 < a.pH_sigma) (hts : 0 < a.temp_sigma)
    (hs : 0 ≤ a.substrate_conc)
    (hi : ∀ i, a.inhibitor_conc = some i → 0 ≤ i)
    (hki : ∀ k, a.ki = some k → 0 < k) :
    ∃ r, simulate_reaction_rate a = .ok r ∧ 0 ≤ r :=
  simulate_ok_nonneg hv hk hps hts hs hi hki

/-- Witness for C2 at a concrete valid input. -/
theorem simulate_nonneg_witness :
    ∃ r, simulate_reaction_rate { substrate_conc := 1, vmax := 100,
                                  km := 0.5, pH := 6.2,
                                  temp := 41 } = .ok r ∧ 0 ≤ r :=
  simulate_nonneg
    { substrate_conc := 1, vmax := 100, km := 0.5, pH := 6.2,
      temp := 41 }
    (by norm_num) (by norm_num) (by norm_num) (by norm_num) (by norm_num)
    (by simp) (by simp)

/-- Claim C6: at `temp = optimal_temp` and `pH = optimal_pH` both
penalty factors equal 1 and the result is the unpenalized
Michaelis-Menten base rate. -/
theorem simulate_at_optima (a : RateArgs) (e : ℝ)
    (htemp : a.temp = a.optimal_temp) (hph : a.pH = a.optimal_pH)
    (he : km_effective a = .ok e) (hden : e + a.substrate_conc ≠ 0)
    (hts : a.temp_sigma ≠ 0) (hps : a.pH_sigma ≠ 0) :
    simulate_reaction_rate a =
      .ok ((a.vmax * a.substrate_conc) / (e + a.substrate_conc)) := by
  have h := simulate_eval he hden hts hps
  rw [h, htemp, hph]
  norm_num [Real.exp_zero]

/-- Witness for C6: the spec's example, `vmax = 100`, `km = 0.5`,
`substrate_conc = 1`, evaluated at the optima: the rate is
100·1/(0.5+1) = 200/3 ≈ 66.667. -/
theorem simulate_at_optima_witness :
    simulate_reaction_rate { substrate_conc := 1.0, vmax := 100,
                             km := 0.5, pH := 7.0,
                             temp := 37.0 } = .ok (200 / 3) := by
  have h := simulate_at_optima
    { substrate_conc := 1.0, vmax := 100, km := 0.5, pH := 7.0,
      temp := 37.0 } 0.5
    (by norm_num) (by norm_num) (km_effective_none (Or.inl rfl))
    (by norm_num) (by norm_num) (by norm_num)
  rw [h]
  norm_num

/-- Counterexample to C3 as stated: at `temp_sigma = -5 ≤ 0` the call
does not fail at all — it returns the numeric rate 200/3 (the sigma
enters only through its square). -/
theorem sigma_negative_returns_rate :
    ((-5 : ℝ) ≤ 0) ∧
    simulate_reaction_rate { substrate_conc := 1, vmax := 100, km := 0.5,
                             pH := 7.0, temp := 37.0,
                             temp_sigma := -5 } = .ok (200 / 3) := by
  refine ⟨by norm_num, ?_⟩
  have h := simulate_eval
    (a := { substrate_conc := 1, vmax := 100, km := 0.5, pH := 7.0,
            temp := 37.0, temp_sigma := -5 })
    (km_effective_none (Or.inl rfl)) (by norm_num) (by norm_num)
    (by norm_num)
  rw [h]
  norm_num [Real.exp_zero]

/-- Claim C3 as amended: the evaluator has no explicit sigma guard.
At `pH_sigma = 0` or `temp_sigma = 0` the call fails with Python's
built-in `ZeroDivisionError` (never `InvalidInputError`), while a
strictly negative sigma is accepted and yields a numeric rate, since
only the square of sigma is used. -/
theorem sigma_zero_fails (a : RateArgs)
    (h : a.pH_sigma = 0 ∨ a.temp_sigma = 0) :
    simulate_reaction_rate a = .error .zeroDivisionError := by
  unfold simulate_reaction_rate
  cases hke : km_effective a with
  | error e => rw [error_bind, km_effective_error hke]
  | ok keff =>
      rw [ok_bind]
      cases hv : pydiv (a.vmax * a.substrate_conc)
          (keff + a.substrate_conc) with
      | error e => rw [error_bind, pydiv_error hv]
      | ok v =>
          rw [ok_bind]
          rcases h with hps | hts
          · cases ht : pydiv (-((a.temp - a.optimal_temp) ^ 2))
                (2 * a.temp_sigma ^ 2) with
            | error e => rw [error_bind, pydiv_error ht]
            | ok t =>
                rw [ok_bind]
                have hz : (2 : ℝ) * a.pH_sigma ^ 2 = 0 := by
                  rw [hps]; ring
                simp [pydiv, hz]
          · have hz : (2 : ℝ) * a.temp_sigma ^ 2 = 0 := by
              rw [hts]; ring
            simp [pydiv, hz]

/-- Witness for the amended C3 at `pH_sigma = 0`. -/
theorem sigma_zero_fails_witness :
    simulate_reaction_rate { substrate_conc := 1, vmax := 100, km := 0.5,
                             pH := 7.0, temp := 37.0,
                             pH_sigma := 0 } = .error .zeroDivisionError :=
  sigma_zero_fails
    { substrate_conc := 1, vmax := 100, km := 0.5, pH := 7.0,
      temp := 37.0, pH_sigma := 0 }
    (Or.inl rfl)

/-- Counterexample to C4 as stated: at `km = -1`, `substrate_conc = 1`
the effective Michaelis constant plus the substrate concentration is 0,
and the call fails with `ZeroDivisionError`, not `InvalidInputError`. -/
theorem zero_denominator_not_invalid_input :
    km_effective { substrate_conc := 1, vmax := 100, km := -1,
                   pH := 7.0, temp := 37.0 } = .ok (-1) ∧
    ((-1 : ℝ) + 1 = 0) ∧
    simulate_reaction_rate { substrate_conc := 1, vmax := 100, km := -1,
                             pH := 7.0,
                             temp := 37.0 } = .error .zeroDivisionError ∧
    simulate_reaction_rate { substrate_conc := 1, vmax := 100, km := -1,
                             pH := 7.0,
                             temp := 37.0 } ≠ .error .invalidInputError := by
  have he : km_effective
      { substrate_conc := 1, vmax := 100, km := -1, pH := 7.0,
        temp := 37.0 } = .ok (-1) :=
    km_effective_none (Or.inl rfl)
  have hsim : simulate_reaction_rate
      { substrate_conc := 1, vmax := 100, km := -1, pH := 7.0,
        temp := 37.0 } = .error .zeroDivisionError := by
    unfold simulate_reaction_rate
    rw [he, ok_bind]
    have hz : (-1 : ℝ) + 1 = 0 := by norm_num
    simp [pydiv, hz]
  exact ⟨he, by norm_num, hsim, by rw [hsim]; simp⟩

/-- Claim C4 as amended: when the effective Michaelis constant plus the
substrate concentration is 0, the call fails — with Python's built-in
`ZeroDivisionError`, not `InvalidInputError` — rather than propagating
NaN or infinity. -/
theorem zero_denominator_fails (a : RateArgs) (e : ℝ)
    (he : km_effective a = .ok e) (hden : e + a.substrate_conc = 0) :
    simulate_reaction_rate a = .error .zeroDivisionError := by
  unfold simulate_reaction_rate
  rw [he, ok_bind]
  simp [pydiv, hden]

/-- Witness for the amended C4 at `km = -1`, `substrate_conc = 1`. -/
theorem zero_denominator_fails_witness :
    simulate_reaction_rate { substrate_conc := 1, vmax := 100, km := -1,
                             pH := 6.0,
                             temp := 30.0 } = .error .zeroDivisionError :=
  zero_denominator_fails
    { substrate_conc := 1, vmax := 100, km := -1, pH := 6.0,
      temp := 30.0 }
    (-1) (km_effective_none (Or.inl rfl)) (by norm_num)

/-- Counterexample to C7 as stated: at `substrate_conc = 0` (a valid
input) the rate is 0 for every inhibitor concentration, so raising the
inhibitor concentration from 0 to 1 does not strictly decrease it. -/
theorem inhibition_not_strict_at_zero_substrate :
    ((0 : ℝ) < 1) ∧
    simulate_reaction_rate { substrate_conc := 0, vmax := 100, km := 0.5,
                             pH := 7.0, temp := 37.0,
                             inhibitor_conc := some 0,
                             ki := some 1 } = .ok 0 ∧
    simulate_reaction_rate { substrate_conc := 0, vmax := 100, km := 0.5,
                             pH := 7.0, temp := 37.0,
                             inhibitor_conc := some 1,
                             ki := some 1 } = .ok 0 := by
  refine ⟨one_pos, ?_, ?_⟩
  · have h := simulate_eval
      (a := { substrate_conc := 0, vmax := 100, km := 0.5, pH := 7.0,
              temp := 37.0, inhibitor_conc := some 0, ki := some 1 })
      (km_effective_some rfl rfl one_ne_zero) (by norm_num) (by norm_num)
      (by norm_num)
    rw [h]
    norm_num
  · have h := simulate_eval
      (a := { substrate_conc := 0, vmax := 100, km := 0.5, pH := 7.0,
              temp := 37.0, inhibitor_conc := some 1, ki := some 1 })
      (km_effective_some rfl rfl one_ne_zero) (by norm_num) (by norm_num)
      (by norm_num)
    rw [h]
    norm_num

/-- Claim C7 as amended: for fixed `ki > 0` and all other arguments
held fixed and valid with a strictly positive substrate concentration
(`vmax > 0`, `km > 0`, `substrate_conc > 0`, nonzero sigmas), the rate
is strictly decreasing in the inhibitor concentration over
`0 ≤ i1 < i2`; at `substrate_conc = 0` the rate is constantly 0, so
the strict decrease claimed for every valid input fails there. -/
theorem inhibition_strict_mono (a : RateArgs) (i1 i2 k : ℝ)
    (hk : 0 < k) (hi1 : 0 ≤ i1) (h12 : i1 < i2)
    (hv : 0 < a.vmax) (hkm : 0 < a.km) (hs : 0 < a.substrate_conc)
    (hts : a.temp_sigma ≠ 0) (hps : a.pH_sigma ≠ 0) :
    ∃ r1 r2,
      simulate_reaction_rate
        { a with inhibitor_conc := some i1, ki := some k } = .ok r1 ∧
      simulate_reaction_rate
        { a with inhibitor_conc := some i2, ki := some k } = .ok r2 ∧
      r2 < r1 := by
  have hk0 : k ≠ 0 := ne_of_gt hk
  have hq : i1 / k < i2 / k := by gcongr
  have hq1 : 0 ≤ i1 / k := div_nonneg hi1 hk.le
  have hD1 : 0 < a.km * (1 + i1 / k) + a.substrate_conc := by nlinarith
  have hD2 : 0 < a.km * (1 + i2 / k) + a.substrate_conc := by nlinarith
  have h1 := simulate_eval
    (a := { a with inhibitor_conc := some i1, ki := some k })
    (km_effective_some rfl rfl hk0) (ne_of_gt hD1) hts hps
  have h2 := simulate_eval
    (a := { a with inhibitor_conc := some i2, ki := some k })
    (km_effective_some rfl rfl hk0) (ne_of_gt hD2) hts hps
  refine ⟨_, _, h1, h2, ?_⟩
  have hP : 0 < Real.exp (-((a.temp - a.optimal_temp) ^ 2) /
        (2 * a.temp_sigma ^ 2)) *
      Real.exp (-((a.pH - a.optimal_pH) ^ 2) / (2 * a.pH_sigma ^ 2)) := by
    positivity
  have hbase : a.vmax * a.substrate_conc /
        (a.km * (1 + i2 / k) + a.substrate_conc) <
      a.vmax * a.substrate_conc /
        (a.km * (1 + i1 / k) + a.substrate_conc) :=
    div_lt_div_of_pos_left (mul_pos hv hs) hD1 (by nlinarith)
  exact mul_lt_mul_of_pos_right hbase hP

/-- Witness for the amended C7: raising the inhibitor concentration
from 0 to 1 at `ki = 1` strictly lowers the rate. -/
theorem inhibition_strict_mono_witness :
    ∃ r1 r2,
      simulate_reaction_rate { substrate_conc := 1, vmax := 100,
                               km := 0.5, pH := 7.0, temp := 37.0,
                               inhibitor_conc := some 0,
                               ki := some 1 } = .ok r1 ∧
      simulate_reaction_rate { substrate_conc := 1, vmax := 100,
                               km := 0.5, pH := 7.0, temp := 37.0,
                               inhibitor_conc := some 1,
                               ki := some 1 } = .ok r2 ∧
      r2 < r1 :=
  inhibition_strict_mono
    { substrate_conc := 1, vmax := 100, km := 0.5, pH := 7.0,
      temp := 37.0 }
    0 1 1 one_pos le_rfl one_pos (by norm_num) (by norm_num)
    (by norm_num) (by norm_num) (by norm_num)

/-- Claim C8: the evaluator is symmetric around the optimal
temperature: its value (or error) at `temp = optimal_temp + d` equals
its value at `temp = optimal_temp - d`, all other arguments fixed. -/
theorem simulate_temp_symmetry (a : RateArgs) (d : ℝ) :
    simulate_reaction_rate { a with temp := a.optimal_temp + d } =
      simulate_reaction_rate { a with temp := a.optimal_temp - d } := by
  unfold simulate_reaction_rate km_effective
  dsimp only
  rw [show (a.optimal_temp + d - a.optimal_temp) ^ 2 =
      (a.optimal_temp - d - a.optimal_temp) ^ 2 from by ring]

/-- The two copies of the evaluator are extensionally equal: the first
`base_rate` computation in `simulation.py` is discarded and every later
step repeats a computation already performed, so even the raised errors
agree. -/
theorem simulation_eq_reaction (a : RateArgs) :
    simulation_simulate_reaction_rate a = simulate_reaction_rate a := by
  unfold simulation_simulate_reaction_rate simulate_reaction_rate
  cases hke : km_effective a with
  | error e => simp
  | ok keff =>
      simp only [ok_bind]
      cases hv : pydiv (a.vmax * a.substrate_conc)
          (keff + a.substrate_conc) with
      | error e => simp
      | ok v => simp only [ok_bind]

/-- Claim C9: on every input where both copies of the evaluator return
a value, `simulate_reaction_rate` from `simulation.py` and
`simulate_reaction_rate` from `reaction_simulator.py` agree. -/
theorem duplicate_evaluators_agree (a : RateArgs) (r1 r2 : ℝ)
    (h1 : simulation_simulate_reaction_rate a = .ok r1)
    (h2 : simulate_reaction_rate a = .ok r2) : r1 = r2 := by
  rw [simulation_eq_reaction] at h1
  rw [h1] at h2
  exact Except.ok.inj h2

/-- Witness for C9: both copies return 200/3 on the spec's example. -/
theorem duplicate_evaluators_agree_witness : (200 : ℝ) / 3 = 200 / 3 := by
  have heval : simulate_reaction_rate
      { substrate_conc := 1, vmax := 100, km := 0.5, pH := 7.0,
        temp := 37.0 } = .ok (200 / 3) := by
    have h := simulate_eval
      (a := { substrate_conc := 1, vmax := 100, km := 0.5, pH := 7.0,
              temp := 37.0 })
      (km_effective_none (Or.inl rfl)) (by norm_num) (by norm_num)
      (by norm_num)
    rw [h]
    norm_num [Real.exp_zero]
  exact duplicate_evaluators_agree
    { substrate_conc := 1, vmax := 100, km := 0.5, pH := 7.0,
      temp := 37.0 }
    (200 / 3) (200 / 3)
    (by rw [simulation_eq_reaction]; exact heval) heval

/-- A successful `List.lookup` points at an element of the list. -/
theorem lookup_mem {β : Type} {l : List (String × β)} {a : String} {b : β}
    (h : l.lookup a = some b) : (a, b) ∈ l := by
  induction l with
  | nil => simp [List.lookup] at h
  | cons p t ih =>
      obtain ⟨k, v⟩ := p
      simp only [List.lookup] at h
      cases hak : a == k
      · rw [hak] at h
        exact List.mem_cons_of_mem _ (ih h)
      · rw [hak] at h
        simp at h
        have hk : a = k := eq_of_beq hak
        subst hk
        subst h
        exact List.mem_cons_self _ _

theorem stable_target {k k2 : String} (h : key_mapping.lookup k = some k2) :
    stableKey k2 := by
  have hall : ∀ p ∈ key_mapping, stableKey p.2 := by decide
  exact hall (k, k2) (lookup_mem h)

theorem dictKeys_dictInsert {V : Type} (d : List (String × V)) (k : String)
    (v : V) :
    dictKeys (dictInsert d k v) =
      if k ∈ dictKeys d then dictKeys d else dictKeys d ++ [k] := by
  unfold dictInsert dictKeys
  by_cases h : k ∈ d.map Prod.fst
  · have hany : (d.any fun p => p.1 == k) = true := by
      rw [List.any_eq_true]
      obtain ⟨p, hp, hpk⟩ := List.mem_map.mp h
      exact ⟨p, hp, by simp [hpk]⟩
    rw [if_pos h, if_pos hany, List.map_map]
    apply List.map_congr_left
    intro p hp
    by_cases hpk : p.1 = k
    · simp [hpk]
    · simp [hpk]
  · have hany : (d.any fun p => p.1 == k) = false := by
      rw [List.any_eq_false]
      intro p hp hpk
      exact h (List.mem_map.mpr ⟨p, hp, eq_of_beq hpk⟩)
    rw [if_neg h, if_neg (by simp [hany])]
    simp

theorem nodup_dictInsert {V : Type} {d : List (String × V)}
    (hd : (dictKeys d).Nodup) (k : String) (v : V) :
    (dictKeys (dictInsert d k v)).Nodup := by
  rw [dictKeys_dictInsert]
  by_cases hk : k ∈ dictKeys d
  · rw [if_pos hk]
    exact hd
  · rw [if_neg hk]
    simp [List.nodup_append, hd, hk]

theorem mem_dictKeys_dictInsert {V : Type} {d : List (String × V)}
    {k k2 : String} {v : V} (h : k2 ∈ dictKeys (dictInsert d k v)) :
    k2 ∈ dictKeys d ∨ k2 = k := by
  rw [dictKeys_dictInsert] at h
  by_cases hk : k ∈ dictKeys d
  · rw [if_pos hk] at h
    exact Or.inl h
  · rw [if_neg hk] at h
    rcases List.mem_append.mp h with h1 | h1
    · exact Or.inl h1
    · simp at h1
      exact Or.inr h1

theorem normalizeStep_view {V : Type} (acc : List (String × V))
    (p : String × V) :
    ∃ k2, normalizeStep acc p = dictInsert acc k2 p.2 ∧ stableKey k2 := by
  unfold normalizeStep
  cases h : key_mapping.lookup p.1 with
  | none => exact ⟨p.1, rfl, Or.inl h⟩
  | some k2 => exact ⟨k2, rfl, stable_target h⟩

theorem normalizeStep_of_stable {V : Type} (acc : List (String × V))
    (p : String × V) (hp : stableKey p.1) :
    normalizeStep acc p = dictInsert acc p.1 p.2 := by
  unfold normalizeStep
  rcases hp with h | h <;> rw [h]

theorem normalize_invariant {V : Type} (l : List (String × V)) :
    ∀ acc : List (String × V),
      (dictKeys acc).Nodup → (∀ k ∈ dictKeys acc, stableKey k) →
      (dictKeys (l.foldl normalizeStep acc)).Nodup ∧
        ∀ k ∈ dictKeys (l.foldl normalizeStep acc), stableKey k := by
  induction l with
  | nil => exact fun acc h1 h2 => ⟨h1, h2⟩
  | cons p t ih =>
      intro acc h1 h2
      rw [List.foldl_cons]
      obtain ⟨k2, hstep, hk2⟩ := normalizeStep_view acc p
      rw [hstep]
      apply ih
      · exact nodup_dictInsert h1 _ _
      · intro k hk
        rcases mem_dictKeys_dictInsert hk with h | h
        · exact h2 k h
        · subst h
          exact hk2

theorem normalize_keys_nodup_stable {V : Type} (d : List (String × V)) :
    (dictKeys (normalize_keys d)).Nodup ∧
      ∀ k ∈ dictKeys (normalize_keys d), stableKey k :=
  normalize_invariant d [] List.nodup_nil (by simp [dictKeys])

theorem dictInsert_append {V : Type} (acc : List (String × V)) (k : String)
    (v : V) (h : k ∉ dictKeys acc) : dictInsert acc k v = acc ++ [(k, v)] := by
  have hany : (acc.any fun p => p.1 == k) = false := by
    rw [List.any_eq_false]
    intro p hp hpk
    exact h (List.mem_map.mpr ⟨p, hp, eq_of_beq hpk⟩)
  unfold dictInsert
  rw [if_neg (by simp [hany])]

theorem foldl_step_fixed {V : Type} (l : List (String × V)) :
    ∀ acc : List (String × V),
      (dictKeys l).Nodup → (∀ k ∈ dictKeys l, stableKey k) →
      (∀ k ∈ dictKeys l, k ∉ dictKeys acc) →
      l.foldl normalizeStep acc = acc ++ l := by
  induction l with
  | nil => simp
  | cons p t ih =>
      intro acc hl hstable hdisj
      rw [List.foldl_cons]
      have hp1 : stableKey p.1 := hstable p.1 (by simp [dictKeys])
      rw [normalizeStep_of_stable _ _ hp1,
        dictInsert_append _ _ _ (hdisj p.1 (by simp [dictKeys]))]
      have hpp : (p.1, p.2) = p := rfl
      rw [hpp]
      have hkeys : dictKeys (p :: t) = p.1 :: dictKeys t := rfl
      rw [hkeys] at hl hstable hdisj
      have hnt : (dictKeys t).Nodup := hl.of_cons
      have hp1nt : p.1 ∉ dictKeys t := (List.nodup_cons.mp hl).1
      rw [ih (acc ++ [p]) hnt
        (fun k hk => hstable k (List.mem_cons_of_mem _ hk))
        ?_]
      · rw [List.append_assoc]
        rfl
      · intro k hk
        have hka : k ∉ dictKeys acc := hdisj k (List.mem_cons_of_mem _ hk)
        have hkp : k ≠ p.1 := fun he => hp1nt (he ▸ hk)
        unfold dictKeys
        rw [List.map_append]
        intro hmem
        rcases List.mem_append.mp hmem with h | h
        · exact hka h
        · simp at h
          exact hkp h

theorem normalize_keys_fixed {V : Type} (l : List (String × V))
    (hl : (dictKeys l).Nodup) (hstable : ∀ k ∈ dictKeys l, stableKey k) :
    normalize_keys l = l := by
  unfold normalize_keys
  have h := foldl_step_fixed l [] hl hstable (by simp [dictKeys])
  simpa using h

/-- Claim C10: `normalize_keys` is idempotent — no generic target key
produced by `key_mapping` is itself remapped to a different key, so a
second pass rebuilds the same dict. -/
theorem normalize_keys_idempotent {V : Type} (d : List (String × V)) :
    normalize_keys (normalize_keys d) = normalize_keys d := by
  obtain ⟨h1, h2⟩ := normalize_keys_nodup_stable d
  exact normalize_keys_fixed _ h1 h2

/-- Claim C5: the search box of `optimize_reaction` is substrate
concentration ∈ [0.01, 10.0], pH ∈ [4.0, 9.0], temperature ∈
[20.0, 60.0]; for every minimizer meeting the documented
`differential_evolution` contract — argmin inside the bounds and
minimum value equal to the objective there — and every valid parameter
set, the returned `best_conditions` lies in the box componentwise,
`max_rate ≥ 0`, and `max_rate` equals the evaluator rate at
`best_conditions` (the negated minimized objective). -/
theorem optimize_reaction_spec
    (de : ((ℝ × ℝ × ℝ) → Except PyError ℝ) → DEResult) (p : EnzymeParams)
    (hx : in_de_bounds (de (objective p)).x)
    (hf : objective p (de (objective p)).x = .ok (de (objective p)).fval)
    (hv : 0 < p.vmax) (hkm : 0 < p.km)
    (hps : ∀ s, p.pH_sigma = some s → 0 < s)
    (hts : ∀ s, p.temp_sigma = some s → 0 < s)
    (hi : ∀ i, p.inhibitor_conc = some i → 0 ≤ i)
    (hki : ∀ k, p.ki = some k → 0 < k) :
    de_bounds = [(0.01, 10.0), (4.0, 9.0), (20.0, 60.0)] ∧
    in_de_bounds (optimize_reaction de p).best_conditions ∧
    0 ≤ (optimize_reaction de p).max_rate ∧
    simulate_reaction_rate
        (rate_args_at p (optimize_reaction de p).best_conditions) =
      .ok ((optimize_reaction de p).max_rate) := by
  have hx2 := hx
  simp only [in_de_bounds, de_bounds, List.forall₂_cons] at hx2
  have hs : 0 ≤ (de (objective p)).x.1 := by
    have h1 := hx2.1.1
    norm_num at h1
    linarith
  have hps2 : 0 < (rate_args_at p (de (objective p)).x).pH_sigma := by
    show 0 < p.pH_sigma.getD 1.0
    cases hopt : p.pH_sigma with
    | none => norm_num
    | some s => simpa using hps s hopt
  have hts2 : 0 < (rate_args_at p (de (objective p)).x).temp_sigma := by
    show 0 < p.temp_sigma.getD 5.0
    cases hopt : p.temp_sigma with
    | none => norm_num
    | some s => simpa using hts s hopt
  obtain ⟨r, hsim, hr⟩ :=
    simulate_ok_nonneg (a := rate_args_at p (de (objective p)).x)
      hv hkm hps2 hts2 hs hi hki
  have hfv : -r = (de (objective p)).fval := by
    have hf2 : Except.map (fun v => -v)
        (simulate_reaction_rate (rate_args_at p (de (objective p)).x)) =
        .ok (de (objective p)).fval := hf
    rw [hsim] at hf2
    simp only [Except.map] at hf2
    exact Except.ok.inj hf2
  refine ⟨rfl, hx, ?_, ?_⟩
  · show 0 ≤ -(de (objective p)).fval
    rw [← hfv]
    linarith
  · show simulate_reaction_rate (rate_args_at p (de (objective p)).x) =
      .ok (-(de (objective p)).fval)
    rw [hsim, ← hfv, neg_neg]

/-- Witness for C5: a constant minimizer that returns the point
(1, 7, 37) with the exact objective value there, on the spec's example
parameters. -/
theorem optimize_reaction_spec_witness :
    de_bounds = [(0.01, 10.0), (4.0, 9.0), (20.0, 60.0)] ∧
    in_de_bounds (optimize_reaction
      (fun _ => { x := (1.0, 7.0, 37.0), fval := -(200 / 3) })
      { vmax := 100, km := 0.5, optimal_pH := 7.0,
        optimal_temp := 37.0 }).best_conditions ∧
    0 ≤ (optimize_reaction
      (fun _ => { x := (1.0, 7.0, 37.0), fval := -(200 / 3) })
      { vmax := 100, km := 0.5, optimal_pH := 7.0,
        optimal_temp := 37.0 }).max_rate ∧
    simulate_reaction_rate (rate_args_at
        { vmax := 100, km := 0.5, optimal_pH := 7.0,
          optimal_temp := 37.0 }
        (optimize_reaction
          (fun _ => { x := (1.0, 7.0, 37.0), fval := -(200 / 3) })
          { vmax := 100, km := 0.5, optimal_pH := 7.0,
            optimal_temp := 37.0 }).best_conditions) =
      .ok ((optimize_reaction
        (fun _ => { x := (1.0, 7.0, 37.0), fval := -(200 / 3) })
        { vmax := 100, km := 0.5, optimal_pH := 7.0,
          optimal_temp := 37.0 }).max_rate) := by
  apply optimize_reaction_spec
  · simp only [in_de_bounds, de_bounds, List.forall₂_cons]
    norm_num
  · show (simulate_reaction_rate (rate_args_at
        { vmax := 100, km := 0.5, optimal_pH := 7.0,
          optimal_temp := 37.0 } (1.0, 7.0, 37.0))).map (fun v => -v) =
      .ok (-(200 / 3))
    have h := simulate_eval
      (a := rate_args_at
        { vmax := 100, km := 0.5, optimal_pH := 7.0,
          optimal_temp := 37.0 } (1.0, 7.0, 37.0))
      (km_effective_none (Or.inl rfl)) (by norm_num [rate_args_at])
      (by norm_num [rate_args_at]) (by norm_num [rate_args_at])
    rw [h]
    simp only [Except.map]
    norm_num [rate_args_at, Real.exp_zero]
  · norm_num
  · norm_num
  · simp
  · simp
  · simp
  · simp

end BioOpti
